import Mathlib

/-!
# Cardiac segmentation mesh pipeline — verification development

Shallow embedding of the mesh-generation pipeline of the
`cardiac-segmentation` repository (`src/mesh_generator.py`) and proofs of
the specified properties.

The pipeline is: load a segmentation volume and binarize it against a
target label (`load_segmentation`), smooth the binary label field by
anisotropic diffusion (spec component *LabelFilter*), extract an
isosurface by marching cubes (spec component *IsosurfaceExtractor*),
clean the resulting triangle soup — merge duplicate vertices, drop
degenerate triangles, keep the largest connected component — (spec
component *SurfaceCleaner*), and smooth the cleaned mesh with a
Taubin-style band-limited filter (spec component *SurfaceSmoother*).

`load_segmentation` and the pipeline composition are translated directly
from `src/mesh_generator.py`.  The four pipeline components themselves
are library calls in the source (`medpy.filter.smoothing.anisotropic_diffusion`,
`skimage.measure.marching_cubes`, `pyvista`'s `clean`/`connectivity`,
`vtkWindowedSincPolyDataFilter`), so their bodies are not part of the
repository; they are modelled from the specification (sections 4.1–4.4),
as indicated in each doc comment.

Real-valued voxel data and coordinates are modelled by `ℚ` so that every
definition is executable and every concrete instance decidable.
-/

namespace CardiacMesh

/-- A 3-dimensional point (or vector) with rational coordinates. -/
abbrev Point : Type := ℚ × ℚ × ℚ

/-- A triangle, given by the indices of its three vertices. -/
abbrev Tri : Type := ℕ × ℕ × ℕ

/-- A scalar volume: grid dimensions, voxel data (a total function; only
values at indices below `dims` are meaningful), and voxel spacing.
This models the NIfTI image of the source (`img.get_fdata()` plus
`img.header.get_zooms()`). -/
structure Volume where
  dims : ℕ × ℕ × ℕ
  data : ℕ → ℕ → ℕ → ℚ
  spacing : Point

/-- The error kinds of the pipeline (spec section 7). -/
inductive PipelineError where
  | fileNotFound : PipelineError
  | invalidParameter : ℚ → PipelineError
  | emptyMesh : PipelineError
  | topologyFailure : PipelineError
  deriving DecidableEq, Repr

/-- From `src/mesh_generator.py`, `load_segmentation`: if the file is
absent raise `FileNotFoundError`; otherwise load the volume and binarize
it against the target label
(`(segmentation_data == target_label).astype(np.float32)`), returning
the binary field together with the voxel spacing.  The file system is
modelled by an `Option Volume` argument (`some` when the file exists). -/
def load_segmentation (file : Option Volume) (target_label : ℤ) :
    Except PipelineError (Volume × Point) :=
  match file with
  | none => .error .fileNotFound
  | some img =>
      .ok ({ dims := img.dims
             data := fun i j k => if img.data i j k = (target_label : ℚ) then 1 else 0
             spacing := img.spacing },
           img.spacing)

/-- Modelled from the spec: the LabelFilter implementation is the external
`medpy.filter.smoothing.anisotropic_diffusion` call, not part of `src/`.
Spec §4.1 names two diffusion options (flux-limited, exponential) selecting
"a conductance function evaluated per gradient magnitude" without fixing the
formulas, so an option is modelled as the conductance function it selects: a
map from the conductance (gradient-sensitivity) parameter and a gradient
value to a diffusion weight. -/
structure DiffusionOption where
  weight : ℚ → ℚ → ℚ

/-- Parameters of the LabelFilter component (spec §4.1). -/
structure FilterParams where
  iterations : ℕ
  conductance : ℚ
  stepSize : ℚ
  option : DiffusionOption

/-- Modelled from the spec: one explicit anisotropic-diffusion iteration
(spec §4.1): at every voxel, compute the local gradient of the field along
each axis in both directions (one-sided differences at the grid boundary,
where the outward gradient is taken as zero), scale each by the spacing of
its axis, weight it by the conductance function, and add the weighted sum
scaled by the step size to the voxel value. -/
def diffusionStep (opt : DiffusionOption) (kappa stepSize : ℚ) (sp : Point)
    (dims : ℕ × ℕ × ℕ) (f : ℕ → ℕ → ℕ → ℚ) : ℕ → ℕ → ℕ → ℚ :=
  fun i j k =>
    let v := f i j k
    let flux : ℚ → ℚ := fun g => opt.weight kappa g * g
    let gxp := if i + 1 < dims.1 then (f (i + 1) j k - v) / sp.1 else 0
    let gxm := if 0 < i then (f (i - 1) j k - v) / sp.1 else 0
    let gyp := if j + 1 < dims.2.1 then (f i (j + 1) k - v) / sp.2.1 else 0
    let gym := if 0 < j then (f i (j - 1) k - v) / sp.2.1 else 0
    let gzp := if k + 1 < dims.2.2 then (f i j (k + 1) - v) / sp.2.2 else 0
    let gzm := if 0 < k then (f i j (k - 1) - v) / sp.2.2 else 0
    v + stepSize * (flux gxp + flux gxm + flux gyp + flux gym + flux gzp + flux gzm)

/-- Modelled from the spec: the LabelFilter component (spec §4.1).  Validates
the step size — values outside `(0, 1/4]` are rejected as an
invalid-parameter error reporting the offending value (the `≤ 1/4` bound is
required for iterative stability of the explicit scheme) — then applies
`iterations` anisotropic-diffusion iterations to the label field, producing
a filtered field of identical shape and spacing. -/
def LabelFilter (p : FilterParams) (v : Volume) : Except PipelineError Volume :=
  if p.stepSize ≤ 0 ∨ 1 / 4 < p.stepSize then
    .error (.invalidParameter p.stepSize)
  else
    .ok { v with
      data :=
        (diffusionStep p.option p.conductance p.stepSize v.spacing v.dims)^[p.iterations]
          v.data }

/-- A triangle mesh with per-vertex normals.  Serves as the spec's
`VertexNormalSoup` (raw marching-cubes output, coincident vertices not
merged), `CleanMesh`, and `SmoothedMesh`. -/
structure TriMesh where
  verts : List Point
  tris : List Tri
  normals : List Point
  deriving DecidableEq, Repr

/-- The position offset of marching-cubes cube corner `n` (0–7) from the
cell's base voxel, in the standard corner numbering. -/
def cornerOffset : ℕ → ℕ × ℕ × ℕ
  | 0 => (0, 0, 0)
  | 1 => (1, 0, 0)
  | 2 => (1, 1, 0)
  | 3 => (0, 1, 0)
  | 4 => (0, 0, 1)
  | 5 => (1, 0, 1)
  | 6 => (1, 1, 1)
  | _ => (0, 1, 1)

/-- The twelve edges of a marching-cubes cube, as pairs of corner numbers. -/
def cubeEdges : List (ℕ × ℕ) :=
  [(0, 1), (1, 2), (2, 3), (3, 0), (4, 5), (5, 6), (6, 7), (7, 4),
   (0, 4), (1, 5), (2, 6), (3, 7)]

/-- The field value at corner `c` of the cell based at `cell`. -/
def cornerVal (f : ℕ → ℕ → ℕ → ℚ) (cell c : ℕ × ℕ × ℕ) : ℚ :=
  f (cell.1 + c.1) (cell.2.1 + c.2.1) (cell.2.2 + c.2.2)

/-- The sign pattern of a cell: corner `b` is `true` iff its value is at or
above the isolevel.  This is the cube configuration of spec §4.2. -/
def cellSigns (f : ℕ → ℕ → ℕ → ℚ) (level : ℚ) (cell : ℕ × ℕ × ℕ) (b : ℕ) :
    Bool :=
  decide (level ≤ cornerVal f cell (cornerOffset b))

/-- The cube configuration index (0–255) encoding the sign pattern. -/
def cellConfig (f : ℕ → ℕ → ℕ → ℚ) (level : ℚ) (cell : ℕ × ℕ × ℕ) : ℕ :=
  ((List.range 8).map fun b => if cellSigns f level cell b then 2 ^ b else 0).sum

/-- The cube edges crossed by the isosurface: those whose two corners lie on
opposite sides of the isolevel. -/
def crossedEdges (f : ℕ → ℕ → ℕ → ℚ) (level : ℚ) (cell : ℕ × ℕ × ℕ) :
    List (ℕ × ℕ) :=
  cubeEdges.filter fun e => cellSigns f level cell e.1 != cellSigns f level cell e.2

/-- The isosurface vertex on a crossed cube edge: linear interpolation of
the edge's two corner positions at the parameter where the field reaches the
isolevel, in physical units (voxel index times spacing). -/
def edgeVertex (f : ℕ → ℕ → ℕ → ℚ) (level : ℚ) (sp : Point)
    (cell : ℕ × ℕ × ℕ) (e : ℕ × ℕ) : Point :=
  let ca := cornerOffset e.1
  let cb := cornerOffset e.2
  let fa := cornerVal f cell ca
  let fb := cornerVal f cell cb
  let t := (level - fa) / (fb - fa)
  let ax := ((cell.1 + ca.1 : ℕ) : ℚ) * sp.1
  let ay := ((cell.2.1 + ca.2.1 : ℕ) : ℚ) * sp.2.1
  let az := ((cell.2.2 + ca.2.2 : ℕ) : ℚ) * sp.2.2
  let bx := ((cell.1 + cb.1 : ℕ) : ℚ) * sp.1
  let by' := ((cell.2.1 + cb.2.1 : ℕ) : ℚ) * sp.2.1
  let bz := ((cell.2.2 + cb.2.2 : ℕ) : ℚ) * sp.2.2
  (ax + t * (bx - ax), ay + t * (by' - ay), az + t * (bz - az))

/-- The (unnormalized) gradient of the field at the cell's base voxel, by
forward differences scaled by the spacing; used as the normal of every
vertex the cell emits (spec §4.2: normals come from the local field
gradient, not from face normals). -/
def baseGradient (f : ℕ → ℕ → ℕ → ℚ) (sp : Point) (cell : ℕ × ℕ × ℕ) :
    Point :=
  ((f (cell.1 + 1) cell.2.1 cell.2.2 - f cell.1 cell.2.1 cell.2.2) / sp.1,
   (f cell.1 (cell.2.1 + 1) cell.2.2 - f cell.1 cell.2.1 cell.2.2) / sp.2.1,
   (f cell.1 cell.2.1 (cell.2.2 + 1) - f cell.1 cell.2.1 cell.2.2) / sp.2.2)

/-- Modelled from the spec: the per-configuration triangulation of one cell.
The source hides the 256-entry marching-cubes table inside
`skimage.measure.marching_cubes` and the spec does not list the table's
entries, so the triangulation is concretized as a triangle fan over the
cell's crossed edges (in cube-edge order).  It shares the structural
property of every standard table that matters here: a configuration whose
corners all lie on the same side of the isolevel crosses no edge and
contributes no vertices and no triangles.  Triangle indices are local to
the cell and offset when the cell is appended to the soup. -/
def cellTris (f : ℕ → ℕ → ℕ → ℚ) (level : ℚ) (cell : ℕ × ℕ × ℕ) : List Tri :=
  (List.range ((crossedEdges f level cell).length - 2)).map fun m =>
    (0, m + 1, m + 2)

/-- Append one cell's vertices, triangles (indices offset by the number of
vertices already emitted) and normals to the soup accumulated so far.  Raw
marching-cubes output does not merge coincident vertices across cells. -/
def appendCell (s : TriMesh) (cv : List Point) (ct : List Tri)
    (cn : List Point) : TriMesh :=
  { verts := s.verts ++ cv
    tris := s.tris ++ ct.map fun t =>
      (t.1 + s.verts.length, t.2.1 + s.verts.length, t.2.2 + s.verts.length)
    normals := s.normals ++ cn }

/-- The cells sampled by the extractor: base voxels that are multiples of
the stride and whose cube fits inside the grid (stride `N` samples every
`N`-th cube, spec §4.2). -/
def gridCells (dims : ℕ × ℕ × ℕ) (stride : ℕ) : List (ℕ × ℕ × ℕ) :=
  ((List.range dims.1).filter fun i => decide (i % stride = 0 ∧ i + 1 < dims.1)).flatMap
    fun i =>
      ((List.range dims.2.1).filter fun j =>
          decide (j % stride = 0 ∧ j + 1 < dims.2.1)).flatMap
        fun j =>
          ((List.range dims.2.2).filter fun k =>
              decide (k % stride = 0 ∧ k + 1 < dims.2.2)).map
            fun k => (i, j, k)

/-- Processing of a single cell: its interpolated vertices, its fan
triangulation, and its per-vertex normals, appended to the soup. -/
def extractCell (v : Volume) (level : ℚ) (s : TriMesh) (cell : ℕ × ℕ × ℕ) :
    TriMesh :=
  appendCell s
    ((crossedEdges v.data level cell).map (edgeVertex v.data level v.spacing cell))
    (cellTris v.data level cell)
    (List.replicate (crossedEdges v.data level cell).length
      (baseGradient v.data v.spacing cell))

/-- Modelled from the spec: the IsosurfaceExtractor component (spec §4.2),
implemented in the source by the external `skimage.measure.marching_cubes`
call.  Marching cubes: every sampled unit cube of eight adjacent voxels is
classified by the sign pattern of its corners against the isolevel and
triangulated on its crossed edges, with edge-crossing vertex positions
interpolated linearly between corner values and per-vertex normals taken
from the local field gradient.  An input with no voxel at or above the
isolevel yields the empty soup — a valid result, not an error. -/
def IsosurfaceExtractor (v : Volume) (level : ℚ) (stride : ℕ) : TriMesh :=
  (gridCells v.dims stride).foldl (extractCell v level) ⟨[], [], []⟩

/-- From `src/mesh_generator.py`, `generate_mesh`: runs marching cubes on
the filtered field at the given isolevel with `step_size = 1` and returns
the vertices and faces. -/
def generate_mesh (v : Volume) (level : ℚ) : List Point × List Tri :=
  let m := IsosurfaceExtractor v level 1
  (m.verts, m.tris)

/-- Squared Euclidean distance between two points. -/
def dist2 (p q : Point) : ℚ :=
  (p.1 - q.1) ^ 2 + (p.2.1 - q.2.1) ^ 2 + (p.2.2 - q.2.2) ^ 2

/-- Vertex-merge map (spec §4.3 step (a)): vertex `i` is replaced by the
first vertex of the sequence whose squared distance to it is within the
squared tolerance (for a nonnegative tolerance this is `i` itself when no
earlier vertex is close enough, so the map is total and the chosen
representative is the earliest member of each tolerance cluster). -/
def mergeTarget (verts : List Point) (tol2 : ℚ) (i : ℕ) : ℕ :=
  let p := verts.getD i (0, 0, 0)
  let j := verts.findIdx fun q => decide (dist2 q p ≤ tol2)
  if j < verts.length then j else i

/-- Apply an index map to the three corners of a triangle. -/
def remapTri (f : ℕ → ℕ) (t : Tri) : Tri := (f t.1, f t.2.1, f t.2.2)

/-- The set of (distinct) vertex indices of a triangle. -/
def triVerts (t : Tri) : Finset ℕ := {t.1, t.2.1, t.2.2}

/-- Spec §4.3 steps (a)–(b): remap every triangle through the vertex-merge
map and drop the triangles that reference fewer than three distinct
vertices afterwards. -/
def dedupTris (verts : List Point) (tol2 : ℚ) (tris : List Tri) : List Tri :=
  (tris.map (remapTri (mergeTarget verts tol2))).filter fun t =>
    decide ((triVerts t).card = 3)

/-- Two triangles share an edge iff they have at least two distinct vertex
indices in common. -/
def sharesEdge (t u : Tri) : Prop := 2 ≤ (triVerts t ∩ triVerts u).card

instance (t u : Tri) : Decidable (sharesEdge t u) :=
  inferInstanceAs (Decidable (2 ≤ _))

/-- The face-adjacency graph of a triangle list (spec §4.3 step (c)): two
distinct triangle positions are adjacent iff their triangles share an
edge. -/
def faceGraph (ts : List Tri) : SimpleGraph (Fin ts.length) where
  Adj i j := i ≠ j ∧ sharesEdge (ts.get i) (ts.get j)
  symm := fun i j h =>
    ⟨Ne.symm h.1, by simpa only [sharesEdge, Finset.inter_comm] using h.2⟩
  loopless := fun i h => h.1 rfl

instance faceGraph.adjDecidable (ts : List Tri) :
    DecidableRel (faceGraph ts).Adj := fun i j =>
  inferInstanceAs (Decidable (i ≠ j ∧ sharesEdge (ts.get i) (ts.get j)))

/-- The number of distinct vertices of the connected component of triangle
position `i` — the measure by which the retained component is chosen
(spec §4.3 step (d): "the component with the most vertices"). -/
def compScore (ts : List Tri) (i : Fin ts.length) : ℕ :=
  ((Finset.univ.filter fun j => (faceGraph ts).Reachable i j).biUnion
    fun j => triVerts (ts.get j)).card

/-- The root of the retained component: a triangle position of maximal
component vertex count, the earliest such position when several components
tie (the deterministic tie-break noted in spec §9). -/
def bestRoot (ts : List Tri) : Option (Fin ts.length) :=
  (List.finRange ts.length).foldl
    (fun best i =>
      match best with
      | none => some i
      | some b => if compScore ts b < compScore ts i then some i else some b)
    none

/-- The triangle positions of the retained component: those reachable from
the root in the face-adjacency graph. -/
def keptIdx (ts : List Tri) (r : Fin ts.length) : List (Fin ts.length) :=
  (List.finRange ts.length).filter fun j =>
    decide ((faceGraph ts).Reachable r j)

/-- The set of vertex indices referenced by the retained component. -/
def usedFinset (ts : List Tri) (r : Fin ts.length) : Finset ℕ :=
  (keptIdx ts r).foldr (fun j acc => triVerts (ts.get j) ∪ acc) ∅

/-- The referenced vertex indices of the retained component (among the
`nverts` vertex positions of the soup), in increasing order; the cleaned
mesh keeps exactly these vertices. -/
def usedList (nverts : ℕ) (ts : List Tri) (r : Fin ts.length) : List ℕ :=
  (List.range nverts).filter fun v => decide (v ∈ usedFinset ts r)

/-- Compaction of vertex indices: a referenced vertex index becomes its rank
in the sorted list of referenced indices; an unreferenced index is sent past
the end (making the map injective on all of `ℕ`, though the cleaned
triangles only ever apply it to referenced indices). -/
def renum (used : List ℕ) (v : ℕ) : ℕ :=
  if v ∈ used then used.indexOf v else used.length + v

/-- The triangles of the cleaned mesh: the retained component's triangles
with compacted vertex indices. -/
def cleanTrisOut (nverts : ℕ) (ts : List Tri) (r : Fin ts.length) : List Tri :=
  (keptIdx ts r).map fun j => remapTri (renum (usedList nverts ts r)) (ts.get j)

/-- Assembly of the cleaned mesh: compacted vertex positions (each merged
cluster is represented by its earliest member's position), the retained
component's remapped triangles, and the corresponding normals. -/
def cleanCore (s : TriMesh) (ts : List Tri) (r : Fin ts.length) : TriMesh :=
  { verts := (usedList s.verts.length ts r).map fun v => s.verts.getD v (0, 0, 0)
    tris := cleanTrisOut s.verts.length ts r
    normals := (usedList s.verts.length ts r).map fun v => s.normals.getD v (0, 0, 0) }

/-- Modelled from the spec: the SurfaceCleaner component (spec §4.3),
implemented in the source by the external `pyvista` calls
`PolyData.clean` and `PolyData.connectivity(extraction_mode='largest')`.
In order: (a) merge vertices within the spatial tolerance, remapping
triangle indices; (b) drop triangles with fewer than three distinct
vertices after merging; (c) partition the face-adjacency graph into
connected components; (d) retain only the component with the most
vertices.  A soup with zero triangles — or one in which zero triangles
survive the degeneracy filter — signals an explicit empty-mesh error
rather than silently producing a mesh. -/
def SurfaceCleaner (tol2 : ℚ) (s : TriMesh) : Except PipelineError TriMesh :=
  if s.tris.isEmpty then .error .emptyMesh
  else
    match bestRoot (dedupTris s.verts tol2 s.tris) with
    | none => .error .emptyMesh
    | some r => .ok (cleanCore s (dedupTris s.verts tol2 s.tris) r)

/-- A concrete sample soup used in the concrete instances below: a planar
quadrilateral split into two triangles that share an edge. -/
def sampleSoup : TriMesh :=
  { verts := [(0, 0, 0), (1, 0, 0), (0, 1, 0), (1, 1, 0)]
    tris := [(0, 1, 2), (1, 2, 3)]
    normals := [(0, 0, 1), (0, 0, 1), (0, 0, 1), (0, 0, 1)] }

/-- Parameters of the SurfaceSmoother component (spec §4.4): iteration
count, pass band, and the three feature-preserving flags (each `true`
means the corresponding vertex class IS smoothed, as in the source's
`NonManifoldSmoothingOn` / `FeatureEdgeSmoothingOn` /
`BoundarySmoothingOn`). -/
structure SmoothParams where
  iterations : ℕ
  passBand : ℚ
  smoothNonManifold : Bool
  smoothFeature : Bool
  smoothBoundary : Bool

/-- Componentwise sum of two points. -/
def padd (p q : Point) : Point := (p.1 + q.1, p.2.1 + q.2.1, p.2.2 + q.2.2)

/-- Componentwise difference of two points. -/
def vsub (p q : Point) : Point := (p.1 - q.1, p.2.1 - q.2.1, p.2.2 - q.2.2)

/-- A point scaled by a rational factor. -/
def pscale (c : ℚ) (p : Point) : Point := (c * p.1, c * p.2.1, c * p.2.2)

/-- Dot product. -/
def dot (p q : Point) : ℚ := p.1 * q.1 + p.2.1 * q.2.1 + p.2.2 * q.2.2

/-- Cross product. -/
def cross (p q : Point) : Point :=
  (p.2.1 * q.2.2 - p.2.2 * q.2.1, p.2.2 * q.1 - p.1 * q.2.2,
   p.1 * q.2.1 - p.2.1 * q.1)

/-- The topological neighbors of vertex `v`: all other vertices of the
triangles containing `v`. -/
def vertexNeighbors (tris : List Tri) (v : ℕ) : Finset ℕ :=
  tris.foldr
    (fun t acc => if v ∈ triVerts t then (triVerts t \ {v}) ∪ acc else acc) ∅

/-- The three edges of a triangle, as two-element index sets. -/
def triEdges (t : Tri) : List (Finset ℕ) :=
  [{t.1, t.2.1}, {t.2.1, t.2.2}, {t.1, t.2.2}]

/-- How many triangles of the list contain the given edge. -/
def edgeCount (tris : List Tri) (e : Finset ℕ) : ℕ :=
  (tris.map fun t => (triEdges t).count e).sum

/-- An unnormalized face normal of a triangle. -/
def faceNormal (verts : List Point) (t : Tri) : Point :=
  cross (vsub (verts.getD t.2.1 (0, 0, 0)) (verts.getD t.1 (0, 0, 0)))
    (vsub (verts.getD t.2.2 (0, 0, 0)) (verts.getD t.1 (0, 0, 0)))

/-- Modelled from the spec: a sharp (feature) edge — an edge shared by
exactly two triangles whose dihedral angle is at least a right angle,
concretized as a non-positive dot product of the two face normals (the
spec does not fix the sharpness threshold). -/
def featureEdge (m : TriMesh) (e : Finset ℕ) : Bool :=
  match m.tris.filter fun t => decide (e ∈ triEdges t) with
  | [t₁, t₂] => decide (dot (faceNormal m.verts t₁) (faceNormal m.verts t₂) ≤ 0)
  | _ => false

/-- A vertex excluded from movement by the feature-preserving flags
(spec §4.4): incident to a boundary edge (edge of exactly one triangle)
when boundary smoothing is off, to a non-manifold edge (three or more
triangles) when non-manifold smoothing is off, or to a feature edge when
feature-edge smoothing is off. -/
def frozenVertex (p : SmoothParams) (m : TriMesh) (v : ℕ) : Bool :=
  let es := (m.tris.flatMap triEdges).filter fun e => decide (v ∈ e)
  (!p.smoothBoundary && es.any fun e => edgeCount m.tris e == 1) ||
  (!p.smoothNonManifold && es.any fun e => decide (3 ≤ edgeCount m.tris e)) ||
  (!p.smoothFeature && es.any fun e => featureEdge m e)

/-- The centroid of a set of vertex positions. -/
def centroid (verts : List Point) (s : Finset ℕ) : Point :=
  pscale (1 / (s.card : ℚ))
    (s.sum fun v => verts.getD v (0, 0, 0))

/-- One positional smoothing pass: every vertex not frozen by the flags
moves toward the centroid of its topological neighbors by the factor
`lam`; topology (triangles, normals, vertex count) is untouched. -/
def smoothPass (lam : ℚ) (p : SmoothParams) (m : TriMesh) : TriMesh :=
  { m with
    verts := (List.range m.verts.length).map fun v =>
      let pos := m.verts.getD v (0, 0, 0)
      if frozenVertex p m v then pos
      else padd pos (pscale lam (vsub (centroid m.verts (vertexNeighbors m.tris v)) pos)) }

/-- The two Taubin factors derived from the pass band: a fixed positive
low-pass factor `λ = 1/2` and the corresponding negative factor
`μ = λ/(λ·k − 1)` solving Taubin's pass-band relation `k = 1/λ + 1/μ`
(negative for every pass band in `(0,2)`). -/
def smootherFactors (passBand : ℚ) : ℚ × ℚ :=
  (1 / 2, (1 / 2) / ((1 / 2) * passBand - 1))

/-- One Taubin iteration: a positive pass followed by a negative pass. -/
def taubinStep (p : SmoothParams) (lam mu : ℚ) (m : TriMesh) : TriMesh :=
  smoothPass mu p (smoothPass lam p m)

/-- Modelled from the spec: the smoothing pass of the SurfaceSmoother
component (spec §4.4), implemented in the source by the external
`vtkWindowedSincPolyDataFilter`.  A band-limited (Taubin-style) iterative
filter: each iteration moves every non-frozen vertex toward the centroid
of its topological neighbors by a positive factor and then by a negative
factor chosen from the pass band.  If some vertex has no valid
(nonempty) neighbor set the pass cannot compute its centroid and fails
with a topology-failure error.  (The source's internal coordinate
normalization/denormalization cancels in exact arithmetic and is
omitted.) -/
def taubinSmooth (p : SmoothParams) (m : TriMesh) :
    Except PipelineError TriMesh :=
  if ∃ v, v < m.verts.length ∧ vertexNeighbors m.tris v = ∅ then
    .error .topologyFailure
  else
    .ok ((taubinStep p (smootherFactors p.passBand).1
      (smootherFactors p.passBand).2)^[p.iterations] m)

/-- Modelled from the spec: the SurfaceSmoother component (spec §4.4 and
§7).  A smoothing failure must not crash the pipeline: the component
falls back to returning the unsmoothed clean mesh unchanged and reports
the failure through a warning flag (`true` = warning emitted), as in the
source's `try/except` that prints the error and returns the unsmoothed
mesh. -/
def SurfaceSmoother (p : SmoothParams) (m : TriMesh) : TriMesh × Bool :=
  match taubinSmooth p m with
  | .ok sm => (sm, false)
  | .error _ => (m, true)

/-- From `src/mesh_generator.py`, `create_smooth_mesh`: build the mesh
from vertices and faces, clean it (merge coincident vertices, keep the
largest connected component) and smooth it with 30 windowed-sinc
iterations at pass band `1/10` with boundary, feature-edge and
non-manifold smoothing all enabled; a smoothing failure is caught and the
unsmoothed mesh returned, with the warning flag set. -/
def create_smooth_mesh (verts : List Point) (faces : List Tri) :
    Except PipelineError (TriMesh × Bool) :=
  (SurfaceCleaner 0 ⟨verts, faces, []⟩).map
    (SurfaceSmoother ⟨30, 1 / 10, true, true, true⟩)

/-- The pipeline of `src/mesh_generator.py`'s `__main__` up to and
including cleanup: load and binarize, diffusion-filter, extract the
isosurface, clean. -/
def pipelineToClean (file : Option Volume) (target_label : ℤ)
    (fp : FilterParams) (level : ℚ) (stride : ℕ) (tol2 : ℚ) :
    Except PipelineError TriMesh := do
  let (field, _sp) ← load_segmentation file target_label
  let filtered ← LabelFilter fp field
  SurfaceCleaner tol2 (IsosurfaceExtractor filtered level stride)

/-- The full pipeline: cleanup followed by the smoothing stage, whose
failures are degraded to warnings and never propagate. -/
def pipeline (file : Option Volume) (target_label : ℤ) (fp : FilterParams)
    (level : ℚ) (stride : ℕ) (tol2 : ℚ) (sp : SmoothParams) :
    Except PipelineError TriMesh :=
  (pipelineToClean file target_label fp level stride tol2).map
    fun c => (SurfaceSmoother sp c).1

end CardiacMesh

namespace CardiacMesh

/-- Claim C9: For every input volume and integer target label, binarization by
`load_segmentation` succeeds, preserves the shape (and spacing) of the
input, and yields exactly `1` at voxels whose input value equals the
target label and `0` at every other voxel. -/
theorem load_segmentation_binarizes (v : Volume) (l : ℤ) :
    ∃ field sp, load_segmentation (some v) l = .ok (field, sp) ∧
      field.dims = v.dims ∧ sp = v.spacing ∧
      ∀ i j k, field.data i j k = if v.data i j k = (l : ℚ) then 1 else 0 := by
  exact ⟨_, _, rfl, rfl, rfl, fun _ _ _ => rfl⟩

/-- Claim C10: If the volume exists but no voxel (inside the grid) equals the
target label, `load_segmentation` still succeeds and returns an all-zero
label field of the input's shape. -/
theorem load_segmentation_absent_label (v : Volume) (l : ℤ)
    (h : ∀ i j k, i < v.dims.1 → j < v.dims.2.1 → k < v.dims.2.2 →
      v.data i j k ≠ (l : ℚ)) :
    ∃ field sp, load_segmentation (some v) l = .ok (field, sp) ∧
      field.dims = v.dims ∧
      ∀ i j k, i < v.dims.1 → j < v.dims.2.1 → k < v.dims.2.2 →
        field.data i j k = 0 := by
  refine ⟨_, _, rfl, rfl, fun i j k hi hj hk => ?_⟩
  simp only [load_segmentation]
  exact if_neg (h i j k hi hj hk)

/-- Concrete instance of `load_segmentation_absent_label`: a 2×2×2 volume of
zeros contains no voxel equal to label 1, and binarizing it yields zero at
voxel (0,0,0). -/
theorem load_segmentation_absent_label_witness :
    ∃ field sp,
      load_segmentation (some ⟨(2, 2, 2), fun _ _ _ => 0, (1, 1, 1)⟩) 1 =
        .ok (field, sp) ∧
      field.dims = (2, 2, 2) ∧
      ∀ i j k, i < 2 → j < 2 → k < 2 → field.data i j k = 0 :=
  load_segmentation_absent_label ⟨(2, 2, 2), fun _ _ _ => 0, (1, 1, 1)⟩ 1
    (fun _ _ _ _ _ _ => by norm_num)

/-- Claim C1: For every label field and parameter set, a step size above `1/4`
(e.g. `3/10`) makes `LabelFilter` fail with an invalid-parameter error
reporting the offending value, while a step size of exactly `1/4` succeeds
and produces a filtered field. -/
theorem LabelFilter_stepSize_bound (p : FilterParams) (v : Volume) :
    (1 / 4 < p.stepSize →
      LabelFilter p v = .error (.invalidParameter p.stepSize)) ∧
    (p.stepSize = 1 / 4 → ∃ w, LabelFilter p v = .ok w) := by
  constructor
  · intro h
    simp only [LabelFilter, if_pos (Or.inr h)]
  · intro h
    have hnot : ¬(p.stepSize ≤ 0 ∨ 1 / 4 < p.stepSize) := by
      rw [h]; norm_num
    rw [LabelFilter, if_neg hnot]
    exact ⟨_, rfl⟩

/-- Concrete instance of `LabelFilter_stepSize_bound`: on a 2×2×2 zero field
with exponential-style weights, step size `3/10` is rejected reporting `3/10`,
and step size `1/4` succeeds. -/
theorem LabelFilter_stepSize_bound_witness :
    (LabelFilter ⟨5, 50, 3 / 10, ⟨fun _ _ => 1⟩⟩
        ⟨(2, 2, 2), fun _ _ _ => 0, (1, 1, 1)⟩ =
      .error (.invalidParameter (3 / 10))) ∧
    ∃ w, LabelFilter ⟨5, 50, 1 / 4, ⟨fun _ _ => 1⟩⟩
        ⟨(2, 2, 2), fun _ _ _ => 0, (1, 1, 1)⟩ = .ok w :=
  ⟨(LabelFilter_stepSize_bound ⟨5, 50, 3 / 10, ⟨fun _ _ => 1⟩⟩
      ⟨(2, 2, 2), fun _ _ _ => 0, (1, 1, 1)⟩).1 (by norm_num),
   (LabelFilter_stepSize_bound ⟨5, 50, 1 / 4, ⟨fun _ _ => 1⟩⟩
      ⟨(2, 2, 2), fun _ _ _ => 0, (1, 1, 1)⟩).2 rfl⟩

/-- Claim C7: For every label field, running `LabelFilter` with zero iterations
(and a step size in the valid range, which is checked before iterating) is
the identity transform: the filtered field equals the input unchanged. -/
theorem LabelFilter_zero_iterations (p : FilterParams) (v : Volume)
    (hpos : 0 < p.stepSize) (hle : p.stepSize ≤ 1 / 4)
    (hiter : p.iterations = 0) :
    LabelFilter p v = .ok v := by
  have hnot : ¬(p.stepSize ≤ 0 ∨ 1 / 4 < p.stepSize) := by
    push_neg
    exact ⟨hpos, hle⟩
  simp only [LabelFilter, if_neg hnot, hiter, Function.iterate_zero, id_eq]

/-- Concrete instance of `LabelFilter_zero_iterations`: with step size `1/10`
and zero iterations, a concrete 2×2×2 field is returned unchanged. -/
theorem LabelFilter_zero_iterations_witness :
    LabelFilter ⟨0, 50, 1 / 10, ⟨fun _ _ => 1⟩⟩
        ⟨(2, 2, 2), fun i j k => (i + 2 * j + 4 * k : ℚ), (1, 1, 1)⟩ =
      .ok ⟨(2, 2, 2), fun i j k => (i + 2 * j + 4 * k : ℚ), (1, 1, 1)⟩ :=
  LabelFilter_zero_iterations _ _ (by norm_num) (by norm_num) rfl

/-- Every cube-corner offset has components at most 1. -/
lemma cornerOffset_le (n : ℕ) :
    (cornerOffset n).1 ≤ 1 ∧ (cornerOffset n).2.1 ≤ 1 ∧
      (cornerOffset n).2.2 ≤ 1 := by
  rcases n with _ | _ | _ | _ | _ | _ | _ | _ | n <;> simp [cornerOffset]

/-- If every in-grid voxel lies strictly below the isolevel and the cell's
cube fits in the grid, every corner sign of the cell is negative. -/
lemma cellSigns_false {dims : ℕ × ℕ × ℕ} {f : ℕ → ℕ → ℕ → ℚ} {level : ℚ}
    {cell : ℕ × ℕ × ℕ}
    (hcell : cell.1 + 1 < dims.1 ∧ cell.2.1 + 1 < dims.2.1 ∧
      cell.2.2 + 1 < dims.2.2)
    (h : ∀ i j k, i < dims.1 → j < dims.2.1 → k < dims.2.2 → f i j k < level)
    (b : ℕ) : cellSigns f level cell b = false := by
  have hoff := cornerOffset_le b
  simp only [cellSigns, cornerVal, decide_eq_false_iff_not, not_le]
  exact h _ _ _ (by omega) (by omega) (by omega)

/-- A cell with all corner signs equal crosses no edge. -/
lemma crossedEdges_eq_nil {f : ℕ → ℕ → ℕ → ℚ} {level : ℚ}
    {cell : ℕ × ℕ × ℕ} (hsigns : ∀ b, cellSigns f level cell b = false) :
    crossedEdges f level cell = [] := by
  refine List.filter_eq_nil_iff.mpr fun e _ => ?_
  simp [hsigns]

/-- A cell that crosses no edge leaves the accumulated soup unchanged. -/
lemma extractCell_fixed {v : Volume} {level : ℚ} {cell : ℕ × ℕ × ℕ}
    (hnil : crossedEdges v.data level cell = []) (s : TriMesh) :
    extractCell v level s cell = s := by
  cases s with
  | mk verts tris normals =>
      simp [extractCell, appendCell, cellTris, hnil]

/-- Folding a step function that fixes every state over any list returns the
initial state. -/
lemma foldl_fixed {α β : Type} {g : β → α → β} :
    ∀ l : List α, (∀ a ∈ l, ∀ s, g s a = s) → ∀ init : β,
      l.foldl g init = init
  | [], _, _ => rfl
  | a :: l, h, init => by
      rw [List.foldl_cons, h a (List.mem_cons_self a l)]
      exact foldl_fixed l (fun b hb => h b (List.mem_cons_of_mem a hb)) init

/-- Every sampled cell's cube fits inside the grid. -/
lemma gridCells_bounds {dims : ℕ × ℕ × ℕ} {stride : ℕ} {cell : ℕ × ℕ × ℕ}
    (hmem : cell ∈ gridCells dims stride) :
    cell.1 + 1 < dims.1 ∧ cell.2.1 + 1 < dims.2.1 ∧
      cell.2.2 + 1 < dims.2.2 := by
  simp only [gridCells, List.mem_flatMap, List.mem_filter, List.mem_map,
    List.mem_range, decide_eq_true_eq] at hmem
  obtain ⟨i, ⟨-, -, hi⟩, j, ⟨-, -, hj⟩, k, ⟨-, -, hk⟩, rfl⟩ := hmem
  exact ⟨hi, hj, hk⟩

/-- Claim C6: A label field that is entirely zero — so that no voxel value is
at or above a positive isolevel — yields from the isosurface extractor the
empty vertex/normal soup, as an ordinary (non-error) result. -/
theorem IsosurfaceExtractor_zero_field (v : Volume) (level : ℚ) (stride : ℕ)
    (hz : ∀ i j k, i < v.dims.1 → j < v.dims.2.1 → k < v.dims.2.2 →
      v.data i j k = 0)
    (hl : 0 < level) :
    IsosurfaceExtractor v level stride = ⟨[], [], []⟩ := by
  have hbelow : ∀ i j k, i < v.dims.1 → j < v.dims.2.1 → k < v.dims.2.2 →
      v.data i j k < level := fun i j k hi hj hk => by
    rw [hz i j k hi hj hk]; exact hl
  refine foldl_fixed _ (fun cell hcell s => ?_) _
  exact extractCell_fixed
    (crossedEdges_eq_nil fun b =>
      cellSigns_false (gridCells_bounds hcell) hbelow b) s

/-- Concrete instance of `IsosurfaceExtractor_zero_field`: the all-zero
2×2×2 field at isolevel `1/2` extracts to the empty soup. -/
theorem IsosurfaceExtractor_zero_field_witness :
    IsosurfaceExtractor ⟨(2, 2, 2), fun _ _ _ => 0, (1, 1, 1)⟩ (1 / 2) 1 =
      ⟨[], [], []⟩ :=
  IsosurfaceExtractor_zero_field ⟨(2, 2, 2), fun _ _ _ => 0, (1, 1, 1)⟩
    (1 / 2) 1 (fun _ _ _ _ _ _ => rfl) (by norm_num)

/-- Claim C8: The isosurface extraction is deterministic: two runs on the same
filtered field with the same spacing, isolevel and stride produce identical
vertex and triangle sequences. -/
theorem IsosurfaceExtractor_deterministic (v : Volume) (level : ℚ)
    (stride : ℕ) (r₁ r₂ : TriMesh)
    (h₁ : r₁ = IsosurfaceExtractor v level stride)
    (h₂ : r₂ = IsosurfaceExtractor v level stride) :
    r₁.verts = r₂.verts ∧ r₁.tris = r₂.tris := by
  subst h₁ h₂
  exact ⟨rfl, rfl⟩

/-- Claim C2: A soup containing zero triangles makes the surface cleaner
signal an explicit empty-mesh error instead of producing a mesh. -/
theorem SurfaceCleaner_empty_error (tol2 : ℚ) (s : TriMesh)
    (h : s.tris = []) : SurfaceCleaner tol2 s = .error .emptyMesh := by
  rw [SurfaceCleaner, if_pos]
  rw [h]
  rfl

/-- Concrete instance of `SurfaceCleaner_empty_error`: a soup with one
vertex and no triangles is rejected with the empty-mesh error. -/
theorem SurfaceCleaner_empty_error_witness :
    SurfaceCleaner 0 ⟨[(0, 0, 0)], [], []⟩ = .error .emptyMesh :=
  SurfaceCleaner_empty_error 0 ⟨[(0, 0, 0)], [], []⟩ rfl

/-- The compaction map is injective (on all of `ℕ`): referenced indices go
to their first position in `used`, unreferenced ones past the end. -/
lemma renum_injective (used : List ℕ) : Function.Injective (renum used) := by
  intro v w hvw
  unfold renum at hvw
  by_cases hv : v ∈ used <;> by_cases hw : w ∈ used
  · rw [if_pos hv, if_pos hw] at hvw
    have hv' := List.indexOf_lt_length.mpr hv
    have hw' := List.indexOf_lt_length.mpr hw
    have h1 := List.indexOf_get (a := v) (l := used) hv'
    have h2 := List.indexOf_get (a := w) (l := used) hw'
    rw [← h1, ← h2]
    exact congrArg used.get (Fin.ext hvw)
  · rw [if_pos hv, if_neg hw] at hvw
    have hv' := List.indexOf_lt_length.mpr hv
    omega
  · rw [if_neg hv, if_pos hw] at hvw
    have hw' := List.indexOf_lt_length.mpr hw
    omega
  · rw [if_neg hv, if_neg hw] at hvw
    omega

/-- Remapping a triangle's corners maps its vertex set through the map. -/
lemma triVerts_remap (f : ℕ → ℕ) (t : Tri) :
    triVerts (remapTri f t) = (triVerts t).image f := by
  simp [triVerts, remapTri, Finset.image_insert]

/-- An injective index remap preserves edge sharing. -/
lemma sharesEdge_remap {f : ℕ → ℕ} (hf : Function.Injective f) {t u : Tri}
    (h : sharesEdge t u) : sharesEdge (remapTri f t) (remapTri f u) := by
  unfold sharesEdge at h ⊢
  rw [triVerts_remap, triVerts_remap, ← Finset.image_inter _ _ hf,
    Finset.card_image_of_injective _ hf]
  exact h

/-- A triangle with three distinct vertices shares an edge with itself. -/
lemma sharesEdge_self {t : Tri} (h : (triVerts t).card = 3) :
    sharesEdge t t := by
  unfold sharesEdge
  rw [Finset.inter_self, h]
  norm_num

/-- Membership in the kept positions is reachability from the root. -/
lemma mem_keptIdx {ts : List Tri} {r j : Fin ts.length} :
    j ∈ keptIdx ts r ↔ (faceGraph ts).Reachable r j := by
  simp [keptIdx, List.mem_filter, List.mem_finRange]

/-- Every triangle surviving the degeneracy filter has three distinct
vertices. -/
lemma dedupTris_card {verts : List Point} {tol2 : ℚ} {tris : List Tri}
    {t : Tri} (h : t ∈ dedupTris verts tol2 tris) : (triVerts t).card = 3 := by
  simp only [dedupTris, List.mem_filter, decide_eq_true_eq] at h
  exact h.2

/-- Every position of the cleaned triangle list carries the remap of a
root-reachable triangle. -/
lemma cleanTrisOut_get (nv : ℕ) (ts : List Tri) (r : Fin ts.length)
    (a : Fin (cleanTrisOut nv ts r).length) :
    ∃ j : Fin ts.length, (faceGraph ts).Reachable r j ∧
      (cleanTrisOut nv ts r).get a =
        remapTri (renum (usedList nv ts r)) (ts.get j) := by
  have ha : (a : ℕ) < (keptIdx ts r).length := by
    have h := a.isLt
    simpa [cleanTrisOut] using h
  refine ⟨(keptIdx ts r).get ⟨a, ha⟩, ?_, ?_⟩
  · exact mem_keptIdx.mp (List.get_mem _ _ ha)
  · simp [cleanTrisOut]

/-- Conversely, every root-reachable triangle appears (remapped) at some
position of the cleaned triangle list. -/
lemma cleanTrisOut_surj (nv : ℕ) (ts : List Tri) (r : Fin ts.length)
    (j : Fin ts.length) (hj : (faceGraph ts).Reachable r j) :
    ∃ a : Fin (cleanTrisOut nv ts r).length,
      (cleanTrisOut nv ts r).get a =
        remapTri (renum (usedList nv ts r)) (ts.get j) := by
  have hmem : remapTri (renum (usedList nv ts r)) (ts.get j) ∈
      cleanTrisOut nv ts r :=
    List.mem_map_of_mem _ (mem_keptIdx.mpr hj)
  exact List.mem_iff_get.mp hmem

/-- Positions of the cleaned list holding remaps of edge-sharing triangles
are joined in the cleaned face graph. -/
lemma cleanTrisOut_adj (nv : ℕ) (ts : List Tri) (r : Fin ts.length)
    {j j' : Fin ts.length} (hshare : sharesEdge (ts.get j) (ts.get j'))
    {a b : Fin (cleanTrisOut nv ts r).length}
    (hga : (cleanTrisOut nv ts r).get a =
      remapTri (renum (usedList nv ts r)) (ts.get j))
    (hgb : (cleanTrisOut nv ts r).get b =
      remapTri (renum (usedList nv ts r)) (ts.get j')) :
    (faceGraph (cleanTrisOut nv ts r)).Reachable a b := by
  by_cases hab : a = b
  · subst hab
    exact SimpleGraph.Reachable.refl a
  · refine SimpleGraph.Adj.reachable ⟨hab, ?_⟩
    rw [hga, hgb]
    exact sharesEdge_remap (renum_injective _) hshare

/-- Reachability from the root transfers from the face graph of the whole
triangle list to the face graph of the cleaned (retained, remapped)
triangle list. -/
lemma cleanTrisOut_reach (nv : ℕ) (ts : List Tri) (r : Fin ts.length)
    (hdeg : ∀ t ∈ ts, (triVerts t).card = 3)
    {u : Fin ts.length} (hru : (faceGraph ts).Reachable r u)
    {a : Fin (cleanTrisOut nv ts r).length}
    (hga : (cleanTrisOut nv ts r).get a =
      remapTri (renum (usedList nv ts r)) (ts.get r)) :
    ∀ b : Fin (cleanTrisOut nv ts r).length,
      (cleanTrisOut nv ts r).get b =
        remapTri (renum (usedList nv ts r)) (ts.get u) →
      (faceGraph (cleanTrisOut nv ts r)).Reachable a b := by
  rw [SimpleGraph.reachable_iff_reflTransGen] at hru
  induction hru with
  | refl =>
      intro b hgb
      exact cleanTrisOut_adj nv ts r
        (sharesEdge_self (hdeg _ (List.get_mem ts r.1 r.isLt))) hga hgb
  | tail hrv hadj ih =>
      intro b hgb
      rename_i v u'
      have hv : (faceGraph ts).Reachable r v :=
        (SimpleGraph.reachable_iff_reflTransGen _ _).mpr hrv
      obtain ⟨c, hc⟩ := cleanTrisOut_surj nv ts r v hv
      exact (ih c hc).trans (cleanTrisOut_adj nv ts r hadj.2 hc hgb)

/-- The face graph of the cleaned triangle list is connected, provided
every triangle of the input list has three distinct vertices. -/
lemma cleanTrisOut_connected (nv : ℕ) (ts : List Tri) (r : Fin ts.length)
    (hdeg : ∀ t ∈ ts, (triVerts t).card = 3) :
    (faceGraph (cleanTrisOut nv ts r)).Connected := by
  obtain ⟨a₀, hga₀⟩ :=
    cleanTrisOut_surj nv ts r r (SimpleGraph.Reachable.refl r)
  rw [SimpleGraph.connected_iff]
  refine ⟨fun a b => ?_, ⟨a₀⟩⟩
  obtain ⟨ja, hja, hga⟩ := cleanTrisOut_get nv ts r a
  obtain ⟨jb, hjb, hgb⟩ := cleanTrisOut_get nv ts r b
  have h1 := cleanTrisOut_reach nv ts r hdeg hja hga₀ a hga
  have h2 := cleanTrisOut_reach nv ts r hdeg hjb hga₀ b hgb
  exact h1.symm.trans h2

/-- A connected finite graph has exactly one connected component. -/
lemma card_connectedComponent_of_connected {n : ℕ}
    {G : SimpleGraph (Fin n)} [DecidableRel G.Adj] (h : G.Connected) :
    Fintype.card G.ConnectedComponent = 1 := by
  rw [Fintype.card_eq_one_iff]
  obtain ⟨v⟩ := h.nonempty
  refine ⟨G.connectedComponentMk v, fun c => ?_⟩
  refine SimpleGraph.ConnectedComponent.ind (fun w => ?_) c
  exact SimpleGraph.ConnectedComponent.eq.mpr (h.preconnected w v)

/-- Claim C4: For every input soup with at least one triangle, a mesh
produced by the surface cleaner has a connected face graph — exactly one
connected component. -/
theorem SurfaceCleaner_single_component (tol2 : ℚ) (s m : TriMesh)
    (hne : s.tris ≠ []) (h : SurfaceCleaner tol2 s = .ok m) :
    (faceGraph m.tris).Connected ∧
      Fintype.card (faceGraph m.tris).ConnectedComponent = 1 := by
  unfold SurfaceCleaner at h
  rw [if_neg (by simp [hne])] at h
  cases hbr : bestRoot (dedupTris s.verts tol2 s.tris) with
  | none => rw [hbr] at h; cases h
  | some r =>
      rw [hbr] at h
      have hm : cleanCore s (dedupTris s.verts tol2 s.tris) r = m :=
        Except.ok.inj h
      have hdeg : ∀ t ∈ dedupTris s.verts tol2 s.tris,
          (triVerts t).card = 3 := fun t ht => dedupTris_card ht
      have hconn := cleanTrisOut_connected s.verts.length
        (dedupTris s.verts tol2 s.tris) r hdeg
      rw [show m.tris = cleanTrisOut s.verts.length
            (dedupTris s.verts tol2 s.tris) r from (congrArg TriMesh.tris hm).symm]
      exact ⟨hconn, card_connectedComponent_of_connected hconn⟩

/-- The vertex-merge map on the sample soup (distinct vertices, zero
tolerance) is the identity on the four vertex indices. -/
lemma sampleSoup_mergeTarget :
    mergeTarget sampleSoup.verts 0 0 = 0 ∧
    mergeTarget sampleSoup.verts 0 1 = 1 ∧
    mergeTarget sampleSoup.verts 0 2 = 2 ∧
    mergeTarget sampleSoup.verts 0 3 = 3 := by
  refine ⟨?_, ?_, ?_, ?_⟩ <;>
    norm_num [mergeTarget, sampleSoup, dist2, List.findIdx_cons,
      List.findIdx_nil]

/-- Merging and degeneracy filtering leave the sample soup's triangles
unchanged. -/
lemma sampleSoup_dedup :
    dedupTris sampleSoup.verts 0 sampleSoup.tris = [(0, 1, 2), (1, 2, 3)] := by
  obtain ⟨h0, h1, h2, h3⟩ := sampleSoup_mergeTarget
  show ((sampleSoup.tris.map (remapTri (mergeTarget sampleSoup.verts 0))).filter _) = _
  rw [show sampleSoup.tris = [(0, 1, 2), (1, 2, 3)] from rfl, List.map_cons,
    List.map_cons, List.map_nil]
  rw [show remapTri (mergeTarget sampleSoup.verts 0) (0, 1, 2) = (0, 1, 2) by
        simp [remapTri, h0, h1, h2],
      show remapTri (mergeTarget sampleSoup.verts 0) (1, 2, 3) = (1, 2, 3) by
        simp [remapTri, h1, h2, h3]]
  decide

/-- Evaluation lemma: once the merged/filtered triangle list is known, the
cleaner is the component-selection match on it. -/
lemma SurfaceCleaner_eval (tol2 : ℚ) (s : TriMesh) (ts' : List Tri)
    (hts : dedupTris s.verts tol2 s.tris = ts')
    (hne : s.tris.isEmpty = false) :
    SurfaceCleaner tol2 s =
      (match bestRoot ts' with
        | none => Except.error PipelineError.emptyMesh
        | some r => Except.ok (cleanCore s ts' r)) := by
  subst hts
  rw [SurfaceCleaner, if_neg (by simp [hne])]
  cases bestRoot (dedupTris s.verts tol2 s.tris) <;> rfl

/-- Concrete instance of `SurfaceCleaner_single_component`: cleaning the
sample soup (two triangles sharing an edge) succeeds and the resulting
mesh's face graph is connected with exactly one component. -/
theorem SurfaceCleaner_single_component_witness :
    (faceGraph sampleSoup.tris).Connected ∧
      Fintype.card (faceGraph sampleSoup.tris).ConnectedComponent = 1 :=
  SurfaceCleaner_single_component 0 sampleSoup sampleSoup (by decide)
    (by rw [SurfaceCleaner_eval 0 sampleSoup [(0, 1, 2), (1, 2, 3)]
          sampleSoup_dedup rfl]
        rfl)

/-- A single smoothing pass changes only vertex positions: vertex count,
triangles and normals are untouched. -/
lemma smoothPass_topology (lam : ℚ) (p : SmoothParams) (m : TriMesh) :
    (smoothPass lam p m).verts.length = m.verts.length ∧
    (smoothPass lam p m).tris = m.tris ∧
    (smoothPass lam p m).normals = m.normals :=
  ⟨by simp [smoothPass], rfl, rfl⟩

/-- Iterated Taubin steps change only vertex positions. -/
lemma taubin_iterate_topology (p : SmoothParams) (lam mu : ℚ) (n : ℕ)
    (m : TriMesh) :
    ((taubinStep p lam mu)^[n] m).verts.length = m.verts.length ∧
    ((taubinStep p lam mu)^[n] m).tris = m.tris ∧
    ((taubinStep p lam mu)^[n] m).normals = m.normals := by
  induction n generalizing m with
  | zero => exact ⟨rfl, rfl, rfl⟩
  | succ n ih =>
      rw [Function.iterate_succ_apply]
      obtain ⟨h1, h2, h3⟩ := ih (taubinStep p lam mu m)
      have s1 := smoothPass_topology lam p m
      have s2 := smoothPass_topology mu p (smoothPass lam p m)
      unfold taubinStep at h1 h2 h3
      exact ⟨h1.trans (s2.1.trans s1.1), h2.trans (s2.2.1.trans s1.2.1),
        h3.trans (s2.2.2.trans s1.2.2)⟩

/-- Claim C3: For every clean mesh and every smoothing parameter set, the
surface smoother's output has the same vertex count, the same triangle
index sets and the same normals as its input — only vertex positions
change, whether the smoothing pass ran or fell back to the input. -/
theorem SurfaceSmoother_topology (p : SmoothParams) (m : TriMesh) :
    ((SurfaceSmoother p m).1).verts.length = m.verts.length ∧
    ((SurfaceSmoother p m).1).tris = m.tris ∧
    ((SurfaceSmoother p m).1).normals = m.normals := by
  rcases h : taubinSmooth p m with e | sm
  · unfold SurfaceSmoother
    rw [h]
    exact ⟨rfl, rfl, rfl⟩
  · unfold SurfaceSmoother
    rw [h]
    unfold taubinSmooth at h
    split at h
    · cases h
    · have hsm := Except.ok.inj h
      rw [← hsm]
      exact taubin_iterate_topology p _ _ p.iterations m

/-- Claim C5: When the smoothing pass fails on a clean mesh, the surface
smoother does not fail: it returns the unsmoothed mesh unchanged together
with the warning flag, and any pipeline run whose cleanup stage produced
that mesh still succeeds, returning the unsmoothed mesh. -/
theorem SurfaceSmoother_graceful (p : SmoothParams) (m : TriMesh)
    (e : PipelineError) (hfail : taubinSmooth p m = .error e) :
    SurfaceSmoother p m = (m, true) ∧
    ∀ file label fp level stride tol2,
      pipelineToClean file label fp level stride tol2 = .ok m →
      pipeline file label fp level stride tol2 p = .ok m := by
  have h1 : SurfaceSmoother p m = (m, true) := by
    unfold SurfaceSmoother
    rw [hfail]
  refine ⟨h1, fun file label fp level stride tol2 hok => ?_⟩
  unfold pipeline
  rw [hok]
  simp [Except.map, h1]

/-- Concrete instance of `SurfaceSmoother_graceful`: a mesh with a single
vertex and no triangles has an empty neighbor set, so smoothing fails and
the smoother returns the mesh unchanged with the warning flag set. -/
theorem SurfaceSmoother_graceful_witness :
    SurfaceSmoother ⟨30, 1 / 10, true, true, true⟩ ⟨[(0, 0, 0)], [], []⟩ =
      (⟨[(0, 0, 0)], [], []⟩, true) :=
  (SurfaceSmoother_graceful ⟨30, 1 / 10, true, true, true⟩
    ⟨[(0, 0, 0)], [], []⟩ .topologyFailure rfl).1

/-- Concrete instance of `IsosurfaceExtractor_deterministic` on a 2×2×2
field. -/
theorem IsosurfaceExtractor_deterministic_witness :
    (IsosurfaceExtractor ⟨(2, 2, 2), fun i j k => (i + j + k : ℚ), (1, 1, 1)⟩
        (1 / 2) 1).verts =
      (IsosurfaceExtractor ⟨(2, 2, 2), fun i j k => (i + j + k : ℚ), (1, 1, 1)⟩
        (1 / 2) 1).verts ∧
    (IsosurfaceExtractor ⟨(2, 2, 2), fun i j k => (i + j + k : ℚ), (1, 1, 1)⟩
        (1 / 2) 1).tris =
      (IsosurfaceExtractor ⟨(2, 2, 2), fun i j k => (i + j + k : ℚ), (1, 1, 1)⟩
        (1 / 2) 1).tris :=
  IsosurfaceExtractor_deterministic _ (1 / 2) 1 _ _ rfl rfl

end CardiacMesh
